import Mathlib

/-!
Shallow embedding of the token-core wallet repository: the CKB offset-table
serializer (src/tcx-ckb/src/serializer.rs), the Bitcoin-fork transaction
signing engine (src/tcx-btc-fork/src/transaction.rs) and the V3 keystores
(src/rust/chain/src/keystore.rs).  Byte strings are `List Nat` with each
element a byte value; machine-integer casts are made explicit with `% 2^w`.
External cryptographic and text-codec capabilities (secp256k1 signing,
base58/cash-address codecs, SHA-256, BIP32 derivation) are out of scope of
the repository and are passed in as explicit function parameters, exactly as
the spec treats them (capability interfaces).
-/

namespace TokenCore

abbrev Bytes := List Nat

/-- Little-endian 4-byte encoding of a `u32` value (higher bits discarded,
matching a Rust `u32` write). -/
def u32LE (n : Nat) : Bytes :=
  [n % 256, n / 256 % 256, n / 65536 % 256, n / 16777216 % 256]

/-- Little-endian 2-byte encoding of a `u16` value. -/
def u16LE (n : Nat) : Bytes :=
  [n % 256, n / 256 % 256]

/-- Little-endian 8-byte encoding of a `u64` value. -/
def u64LE (n : Nat) : Bytes :=
  [n % 256, n / 256 % 256, n / 65536 % 256, n / 16777216 % 256,
   n / 4294967296 % 256, n / 1099511627776 % 256,
   n / 281474976710656 % 256, n / 72057594037927936 % 256]

/-- Rust `x as u64` on an `i64` value (two's-complement wrap). -/
def i64ToU64 (x : Int) : Nat := (x % (18446744073709551616 : Int)).toNat

/-- Rust `x as u32` on an `i32` value (two's-complement wrap). -/
def i32ToU32 (x : Int) : Nat := (x % (4294967296 : Int)).toNat

namespace Serializer

/-- Embeds `Serializer::calculate_offsets` from src/tcx-ckb/src/serializer.rs.
The header length is computed as `4 * 4 * element_lengths.len()`, exactly as
in the source; the offsets vector starts with the header length and each
iteration appends the previous offset plus the current element length, so it
ends with `element_lengths.len() + 1` entries.  The returned first component
is the running total `header_length + sum of lengths`. -/
def offsetsFrom (start : Nat) : List Nat → List Nat
  | [] => []
  | l :: ls => (start + l) :: offsetsFrom (start + l) ls

def calculate_offsets (element_lengths : List Nat) : Nat × List Nat :=
  let header_length := 4 * 4 * element_lengths.length
  (header_length + element_lengths.foldl (fun a b => a + b) 0,
   header_length :: offsetsFrom header_length element_lengths)

/-- Embeds `Serializer::serialize_u32`: little-endian 4-byte write. -/
def serialize_u32 (value : Nat) : Bytes := u32LE value

/-- Embeds `Serializer::serialize_struct`: plain concatenation, no header. -/
def serialize_struct (values : List Bytes) : Bytes := values.flatten

/-- Embeds `Serializer::serialize_dynamic_vec`: writes the first component of
`calculate_offsets` (the running total), then every entry of the offsets
vector, then the concatenated item bytes. -/
def serialize_dynamic_vec (values : List Bytes) : Bytes :=
  let element_lengths := values.map List.length
  let body := values.flatten
  let offsets := calculate_offsets element_lengths
  serialize_u32 offsets.1 ++ (offsets.2.map serialize_u32).flatten ++ body

/-- Embeds `Serializer::serialize_fixed_vec`: 4-byte little-endian total item
length, then the concatenated item bytes. -/
def serialize_fixed_vec (values : List Bytes) : Bytes :=
  serialize_u32 (values.foldl (fun a v => a + v.length) 0) ++ values.flatten

end Serializer

/-! ## Data model of the signing engine (src/tcx-btc-fork/src/transaction.rs) -/

/-- Embeds the `Utxo` wire record.  `vout`, `amount` and `sequence` are the
Rust `i32`/`i64` fields, modelled as mathematical integers. -/
structure Utxo where
  tx_hash : String
  vout : Int
  amount : Int
  address : String
  script_pub_key : String
  derived_path : String
  sequence : Int
deriving DecidableEq, Repr

/-- Embeds the `BitcoinForkTransaction` signing request.  `change_idx` is the
Rust `u32`, modelled as `Nat`. -/
structure BitcoinForkTransaction where
  «to» : String
  amount : Int
  unspents : List Utxo
  memo : String
  fee : Int
  change_idx : Nat
  coin : String
  is_seg_wit : Bool
deriving DecidableEq, Repr

/-- Embeds `bitcoin::OutPoint` (32-byte previous txid plus output index). -/
structure OutPoint where
  txid : Bytes
  vout : Nat
deriving DecidableEq, Repr

/-- Embeds `bitcoin::TxIn`. -/
structure TxIn where
  previous_output : OutPoint
  script_sig : Bytes
  sequence : Nat
  witness : List Bytes
deriving DecidableEq, Repr

/-- Embeds `bitcoin::TxOut` (`value` is the `u64` amount). -/
structure TxOut where
  value : Nat
  script_pubkey : Bytes
deriving DecidableEq, Repr

/-- Embeds `bitcoin::Transaction` (`version` is the Rust `i32`). -/
structure Transaction where
  version : Int
  lock_time : Nat
  input : List TxIn
  output : List TxOut
deriving DecidableEq, Repr

/-- Embeds `tcx_chain::TxSignResult`. -/
structure TxSignResult where
  signature : String
  tx_hash : String
  wtx_id : String
deriving DecidableEq, Repr

/-- Chain parameters returned by `network_from_coin`: only the `fork_id`
byte is read by the signing engine (a Rust `u8`). -/
structure Network where
  fork_id : Nat
deriving DecidableEq, Repr

/-- Embeds the `Account` record as used by the trait `sign_transaction` impl:
a derivation path plus the chain-specific `extra` payload from which the
extended public key is extracted. -/
structure Account where
  derivation_path : String
  extra : String
deriving DecidableEq, Repr

/-- Error observations of the signing engine.  Each constructor corresponds
to a distinct error source in the Rust code: the named constructors are the
engine's own `ensure!`/`ok_or` failures, `capFail` wraps an error propagated
with `?` from an external capability, and `panic` marks a Rust
`unwrap`/`expect`/indexing panic (an abnormal termination, not a returned
error). -/
inductive Err where
  | accountNotFound
  | invalidPassword
  | malformedUtxoPath
  | insufficientFunds
  | unsupportedChain
  | capFail (msg : String)
  | panic (msg : String)
deriving DecidableEq, Repr

/-- Completed stages of the trait-level signing pipeline, recorded in order:
path resolution, password presence check, master-secret decryption plus
per-input key derivation, xpub extraction, change-address derivation. -/
inductive Step where
  | pathsResolved
  | passwordChecked
  | keysDerived
  | xpubObtained
  | changeAddrDerived
deriving DecidableEq, Repr

/-! ## Hex and string helpers (Rust std / bitcoin_hashes behaviour) -/

/-- Value of one hexadecimal digit, accepting both cases. -/
def hexDigitVal (c : Char) : Option Nat :=
  let n := c.toNat
  if 48 ≤ n ∧ n ≤ 57 then some (n - 48)
  else if 97 ≤ n ∧ n ≤ 102 then some (n - 87)
  else if 65 ≤ n ∧ n ≤ 70 then some (n - 55)
  else none

/-- Decode a hex character list two digits at a time; fails on a non-digit
or odd length, like Rust `hex::decode`. -/
def hexPairs : List Char → Option Bytes
  | [] => some []
  | [_] => none
  | a :: b :: rest =>
    match hexDigitVal a, hexDigitVal b, hexPairs rest with
    | some x, some y, some l => some ((16 * x + y) :: l)
    | _, _, _ => none

/-- Embeds `bitcoin_hashes::sha256d::Hash::from_hex`: exactly 64 hex digits,
and the byte order is reversed (txids display backwards). -/
def hash256FromHex (s : String) : Option Bytes :=
  match hexPairs s.data with
  | some bs => if bs.length = 32 then some bs.reverse else none
  | none => none

/-- Lower-case hex character of a nibble. -/
def hexCharOf (n : Nat) : Char :=
  if n < 10 then Char.ofNat (48 + n) else Char.ofNat (87 + n)

/-- Two hex characters of a byte. -/
def byteToHex (b : Nat) : List Char :=
  [hexCharOf (b % 256 / 16), hexCharOf (b % 16)]

/-- Embeds `to_hex` on a byte string. -/
def bytesToHex (bs : Bytes) : String :=
  ⟨bs.foldr (fun b acc => byteToHex b ++ acc) []⟩

/-- Rust `str::trim` (leading and trailing whitespace removed), on the
character list. -/
def trimChars (cs : List Char) : List Char :=
  ((cs.dropWhile Char.isWhitespace).reverse.dropWhile Char.isWhitespace).reverse

/-- Rust `str::trim` on a string. -/
def rustTrim (s : String) : String := ⟨trimChars s.data⟩

/-- Rust `str::replace("/", " ")`: the pattern is a single character, so this
is a character map. -/
def slashToSpace (s : String) : String :=
  ⟨s.data.map (fun c => if c = '/' then ' ' else c)⟩

/-- Rust `str::split(" ")`, which keeps empty segments. -/
def splitSpaceAux : List Char → List Char → List (List Char)
  | [], acc => [acc.reverse]
  | c :: cs, acc =>
    if c = ' ' then acc.reverse :: splitSpaceAux cs [] else splitSpaceAux cs (c :: acc)

def splitSpaces (s : String) : List String :=
  (splitSpaceAux s.data []).map fun cs => ⟨cs⟩

/-- Rust `String::to_uppercase`, restricted to its ASCII action (the coin
symbols in this repository are ASCII). -/
def rustToUppercase (s : String) : String := ⟨s.data.map Char.toUpper⟩

/-! ## Bitcoin wire serialization (rust-bitcoin consensus encoding) -/

/-- Bitcoin variable-length integer. -/
def varint (n : Nat) : Bytes :=
  if n < 253 then [n]
  else if n < 65536 then 253 :: u16LE n
  else if n < 4294967296 then 254 :: u32LE n
  else 255 :: u64LE n

/-- Non-witness encoding of one input. -/
def serTxIn (t : TxIn) : Bytes :=
  t.previous_output.txid ++ u32LE t.previous_output.vout ++
    varint t.script_sig.length ++ t.script_sig ++ u32LE t.sequence

/-- Encoding of one output. -/
def serTxOut (o : TxOut) : Bytes :=
  u64LE o.value ++ varint o.script_pubkey.length ++ o.script_pubkey

/-- Length-prefixed list encoding. -/
def serList {α : Type} (f : α → Bytes) (l : List α) : Bytes :=
  varint l.length ++ (l.map f).flatten

/-- Legacy (pre-segwit) transaction encoding; witness data is ignored.  This
is also the byte string hashed for the transaction id. -/
def legacySerialize (tx : Transaction) : Bytes :=
  u32LE (i32ToU32 tx.version) ++ serList serTxIn tx.input ++
    serList serTxOut tx.output ++ u32LE tx.lock_time

/-- One witness stack: count, then length-prefixed items. -/
def serWitness (t : TxIn) : Bytes :=
  varint t.witness.length ++ (t.witness.map fun w => varint w.length ++ w).flatten

/-- Segwit transaction encoding with the 0x00 0x01 marker/flag. -/
def segwitSerialize (tx : Transaction) : Bytes :=
  u32LE (i32ToU32 tx.version) ++ [0, 1] ++ serList serTxIn tx.input ++
    serList serTxOut tx.output ++ (tx.input.map serWitness).flatten ++
    u32LE tx.lock_time

/-- Embeds `bitcoin::consensus::serialize` for transactions: the segwit
format is used exactly when some input carries witness data. -/
def consensusSerialize (tx : Transaction) : Bytes :=
  if tx.input.any (fun t => !t.witness.isEmpty) then segwitSerialize tx
  else legacySerialize tx

/-- Inputs of the sighash transaction copy: input `i` gets the supplied
script, every other input's script is emptied; previous outputs and
sequence numbers are kept (SIGHASH_ALL) and witnesses are cleared. -/
def substScript (i : Nat) (scr : Bytes) : Nat → List TxIn → List TxIn
  | _, [] => []
  | j, tin :: ins =>
    ⟨tin.previous_output, if j = i then scr else [], tin.sequence, []⟩ ::
      substScript i scr (j + 1) ins

/-- Embeds `bitcoin::Transaction::signature_hash` at the hash types this
engine produces (low five bits = SIGHASH_ALL, no ANYONECANPAY bit): the
transaction copy with input `i`'s script substituted in and all other input
scripts emptied is legacy-serialized, the 4-byte little-endian hash type is
appended, and the result is double-SHA256 hashed (the hash function is the
external capability `sha`). -/
def signature_hash (sha : Bytes → Bytes) (tx : Transaction) (i : Nat)
    (scr : Bytes) (sighashU32 : Nat) : Bytes :=
  sha (legacySerialize ⟨tx.version, tx.lock_time,
        substScript i scr 0 tx.input, tx.output⟩ ++ u32LE sighashU32)

/-- Embeds `bitcoin::blockdata::script::Builder::push_slice`. -/
def pushSlice (d : Bytes) : Bytes :=
  if d.length < 76 then d.length :: d
  else if d.length < 256 then 76 :: d.length :: d
  else if d.length < 65536 then 77 :: u16LE d.length ++ d
  else 78 :: u32LE d.length ++ d

/-! ## External capabilities

The signing engine consumes address codecs, BIP32 derivation, secp256k1
signing and hashing from other crates.  They are modelled as an explicit
record of functions; fallible ones return `Except String`, and the engine
wraps their failures in `Err.capFail` (in Rust all of them propagate through
`?` as `failure::Error`). -/

structure Caps (Addr PrivKey : Type) where
  /-- `tcx_chain::bips::get_account_path`. -/
  getAccountPath : String → Except String String
  /-- `BtcForkAddress::from_str`. -/
  addrFromStr : String → Except String Addr
  /-- `BtcForkAddress::script_pubkey`. -/
  scriptPubkey : Addr → Bytes
  /-- `BtcForkAddress::convert_to_legacy_if_need`. -/
  convertToLegacy : String → Except String Addr
  /-- `Secp256k1Curve::derive_pub_key_at_path` (xpub, relative path). -/
  derivePubKeyAtPath : String → String → Except String Bytes
  /-- `BtcForkAddress::address_like`. -/
  addressLike : Addr → Bytes → Except String Addr
  /-- `network_from_coin`. -/
  networkFromCoin : String → Option Network
  /-- `BtcForkAddress::p2pkh` on the public key bytes. -/
  p2pkh : Bytes → Network → Except String Addr
  /-- `PrivateKey::sign`. -/
  ecSign : PrivKey → Bytes → Except String Bytes
  /-- `PrivateKey::public_key().to_bytes()`. -/
  pubKeyBytes : PrivKey → Bytes
  /-- Double SHA-256 (`bitcoin_hashes::sha256d`). -/
  sha256d : Bytes → Bytes
  /-- `bitcoin_hashes::hash160`. -/
  hash160 : Bytes → Bytes
  /-- `SighashComponentsWithForkId::sighash_all` — the BIP143-with-fork-id
  sighash of (components of tx, input, script, amount, hash type); the
  module `bip143_with_forkid` is outside the provided sources, so it stays
  opaque. -/
  sighashAll : Transaction → TxIn → Bytes → Nat → Nat → Bytes
  /-- `ExtendedPubKeyExtra::xpub`. -/
  xpubOfExtra : String → Except String String

/-- The slice of `HdKeystore` (crate tcx-chain, outside the provided
sources) that the trait `sign_transaction` impl reads: account lookup and
password-gated derivation of one private key per path. -/
structure HdKeystore (PrivKey : Type) where
  account : String → Option Account
  key_at_paths : String → List String → String → Except String (List PrivKey)

/-! ## The signing engine -/

section Engine

variable {Addr PrivKey : Type}

/-- Loop body of `collect_prv_keys_paths`: each Utxo's trimmed
`derived_path` must split into exactly two `/`-separated components and is
appended to the account path. -/
def collectAux (account_path : String) : List Utxo → Except Err (List String)
  | [] => .ok []
  | u :: us =>
    let dp := rustTrim u.derived_path
    if (splitSpaces (slashToSpace dp)).length = 2 then
      match collectAux account_path us with
      | .error e => .error e
      | .ok rest => .ok ((account_path ++ "/" ++ dp) :: rest)
    else .error .malformedUtxoPath

/-- Embeds `BitcoinForkTransaction::collect_prv_keys_paths`. -/
def BitcoinForkTransaction.collect_prv_keys_paths (caps : Caps Addr PrivKey)
    (t : BitcoinForkTransaction) (path : String) : Except Err (List String) :=
  match caps.getAccountPath path with
  | .error s => .error (.capFail s)
  | .ok account_path => collectAux account_path t.unspents

/-- Embeds `BitcoinForkTransaction::receive_script_pubkey`. -/
def BitcoinForkTransaction.receive_script_pubkey (caps : Caps Addr PrivKey)
    (t : BitcoinForkTransaction) : Except Err Bytes :=
  match caps.addrFromStr t.to with
  | .error s => .error (.capFail s)
  | .ok addr => .ok (caps.scriptPubkey addr)

/-- Embeds `BitcoinForkTransaction::fork_id`. -/
def BitcoinForkTransaction.fork_id (caps : Caps Addr PrivKey)
    (t : BitcoinForkTransaction) : Except Err Nat :=
  match caps.networkFromCoin t.coin with
  | none => .error .unsupportedChain
  | some network => .ok network.fork_id

/-- Embeds `BitcoinForkTransaction::sign_hash_and_pub_key`: sign the hash,
append the one-byte hash type `0x01 | fork_id`, and pair with the public key
bytes. -/
def BitcoinForkTransaction.sign_hash_and_pub_key (caps : Caps Addr PrivKey)
    (t : BitcoinForkTransaction) (pri_key : PrivKey) (hash : Bytes) :
    Except Err (Bytes × Bytes) :=
  match caps.ecSign pri_key hash with
  | .error s => .error (.capFail s)
  | .ok signature_bytes =>
    match BitcoinForkTransaction.fork_id caps t with
    | .error e => .error e
    | .ok fork_id =>
      .ok (signature_bytes ++ [Nat.lor 1 fork_id], caps.pubKeyBytes pri_key)

/-- Embeds `BitcoinForkTransaction::change_address`.  The Rust code calls
`self.unspents.first().expect("first_utxo")`, a panic on an empty Utxo
list. -/
def BitcoinForkTransaction.change_address (caps : Caps Addr PrivKey)
    (t : BitcoinForkTransaction) (xpub : String) : Except Err Addr :=
  match t.unspents.head? with
  | none => .error (.panic "first_utxo")
  | some first =>
    match caps.convertToLegacy first.address with
    | .error s => .error (.capFail s)
    | .ok from_addr =>
      match caps.derivePubKeyAtPath xpub ("0/" ++ toString t.change_idx) with
      | .error s => .error (.capFail s)
      | .ok pub_key =>
        match caps.addressLike from_addr pub_key with
        | .error s => .error (.capFail s)
        | .ok addr => .ok addr

/-- Running total of the Utxo amounts (`total_amount` in `tx_outs`). -/
def sumAmounts (us : List Utxo) : Int := us.foldl (fun a u => a + u.amount) 0

/-- Embeds `BitcoinForkTransaction::tx_outs`: fail unless
`total_amount >= amount + fee`, emit the destination output, and append a
change output for `total - amount - fee` exactly when that exceeds the DUST
constant 546. -/
def BitcoinForkTransaction.tx_outs (caps : Caps Addr PrivKey)
    (t : BitcoinForkTransaction) (change_script_pubkey : Bytes) :
    Except Err (List TxOut) :=
  let total_amount := sumAmounts t.unspents
  if total_amount ≥ t.amount + t.fee then
    match BitcoinForkTransaction.receive_script_pubkey caps t with
    | .error e => .error e
    | .ok receive_script_pubkey =>
      let receiver : TxOut := ⟨i64ToU64 t.amount, receive_script_pubkey⟩
      let change_amount := total_amount - t.amount - t.fee
      if change_amount > 546 then
        .ok [receiver, ⟨i64ToU64 change_amount, change_script_pubkey⟩]
      else .ok [receiver]
  else .error .insufficientFunds

/-- Loop of `tx_inputs`: `Hash256::from_hex(&unspent.tx_hash).unwrap()` is a
panic on a malformed hash; the input gets an empty script, sequence
0xFFFFFFFF and no witness, ignoring the Utxo's `sequence` field. -/
def txInputsAux : List Utxo → Except Err (List TxIn)
  | [] => .ok []
  | u :: us =>
    match hash256FromHex u.tx_hash with
    | none => .error (.panic "unwrap")
    | some txid =>
      match txInputsAux us with
      | .error e => .error e
      | .ok rest => .ok (⟨⟨txid, i32ToU32 u.vout⟩, [], 4294967295, []⟩ :: rest)

/-- Embeds `BitcoinForkTransaction::tx_inputs`. -/
def BitcoinForkTransaction.tx_inputs (t : BitcoinForkTransaction) :
    Except Err (List TxIn) :=
  txInputsAux t.unspents

/-- One iteration of `script_sigs_sign` at input index `i`: the Rust body
indexes `self.unspents[i]` and `prv_keys[i]` (panics when out of bounds),
rebuilds the P2PKH locking script from the derived public key, hashes the
transaction with the legacy sighash at type `0x01 | fork_id`, signs, and
assembles `push(sig‖hashType) push(pubKey)`. -/
def scriptSigSignOne (caps : Caps Addr PrivKey) (t : BitcoinForkTransaction)
    (tx : Transaction) (prv_keys : List PrivKey) (i : Nat) :
    Except Err Bytes :=
  match t.unspents.get? i with
  | none => .error (.panic "index out of bounds")
  | some _ =>
    match prv_keys.get? i with
    | none => .error (.panic "index out of bounds")
    | some prv_key =>
      let pub_key := caps.pubKeyBytes prv_key
      match BitcoinForkTransaction.fork_id caps t with
      | .error e => .error e
      | .ok fork_id =>
        match caps.networkFromCoin t.coin with
        | none => .error .unsupportedChain
        | some network =>
          match caps.p2pkh pub_key network with
          | .error s => .error (.capFail s)
          | .ok from_addr =>
            let script := caps.scriptPubkey from_addr
            let hash := signature_hash caps.sha256d tx i script (Nat.lor 1 fork_id)
            match BitcoinForkTransaction.sign_hash_and_pub_key caps t prv_key hash with
            | .error e => .error e
            | .ok sp => .ok (pushSlice sp.1 ++ pushSlice sp.2)

/-- The `for i in 0..tx.input.len()` loop of `script_sigs_sign`, with `i`
the next index and the second argument the number of remaining
iterations. -/
def scriptSigsRange (caps : Caps Addr PrivKey) (t : BitcoinForkTransaction)
    (tx : Transaction) (prv_keys : List PrivKey) : Nat → Nat → Except Err (List Bytes)
  | _, 0 => .ok []
  | i, n + 1 =>
    match scriptSigSignOne caps t tx prv_keys i with
    | .error e => .error e
    | .ok s =>
      match scriptSigsRange caps t tx prv_keys (i + 1) n with
      | .error e => .error e
      | .ok rest => .ok (s :: rest)

/-- Embeds `BitcoinForkTransaction::script_sigs_sign`. -/
def BitcoinForkTransaction.script_sigs_sign (caps : Caps Addr PrivKey)
    (t : BitcoinForkTransaction) (tx : Transaction) (prv_keys : List PrivKey) :
    Except Err (List Bytes) :=
  scriptSigsRange caps t tx prv_keys 0 tx.input.length

/-- One iteration of `witness_sign` at index `i`: P2PKH script bytes are
rebuilt from the hash160 of the public key, the BIP143-with-fork-id sighash
is taken over that script and the Utxo amount, and the signature/public-key
pair is produced by `sign_hash_and_pub_key`. -/
def witnessSignOne (caps : Caps Addr PrivKey) (t : BitcoinForkTransaction)
    (tx : Transaction) (prv_keys : List PrivKey) (i : Nat) :
    Except Err (Bytes × Bytes) :=
  match tx.input.get? i with
  | none => .error (.panic "index out of bounds")
  | some tx_in =>
    match t.unspents.get? i with
    | none => .error (.panic "index out of bounds")
    | some unspent =>
      match prv_keys.get? i with
      | none => .error (.panic "index out of bounds")
      | some prv_key =>
        let pub_key := caps.pubKeyBytes prv_key
        match BitcoinForkTransaction.fork_id caps t with
        | .error e => .error e
        | .ok fork_id =>
          let pub_key_hash := caps.hash160 pub_key
          let script := [118, 169, 20] ++ pub_key_hash ++ [136, 172]
          let hash := caps.sighashAll tx tx_in script (i64ToU64 unspent.amount)
            (Nat.lor 1 fork_id)
          BitcoinForkTransaction.sign_hash_and_pub_key caps t prv_key hash

/-- The index loop of `witness_sign`. -/
def witnessRange (caps : Caps Addr PrivKey) (t : BitcoinForkTransaction)
    (tx : Transaction) (prv_keys : List PrivKey) :
    Nat → Nat → Except Err (List (Bytes × Bytes))
  | _, 0 => .ok []
  | i, n + 1 =>
    match witnessSignOne caps t tx prv_keys i with
    | .error e => .error e
    | .ok w =>
      match witnessRange caps t tx prv_keys (i + 1) n with
      | .error e => .error e
      | .ok rest => .ok (w :: rest)

/-- Embeds `BitcoinForkTransaction::witness_sign`. -/
def BitcoinForkTransaction.witness_sign (caps : Caps Addr PrivKey)
    (t : BitcoinForkTransaction) (tx : Transaction) (prv_keys : List PrivKey) :
    Except Err (List (Bytes × Bytes)) :=
  witnessRange caps t tx prv_keys 0 tx.input.length

/-- Segwit input assembly in `sign_transaction`: each input's script becomes
the P2SH-wrapped witness program `0x16 0x00 0x14 <hash160(pubKey)>` and the
witness carries the signature and public key; `prv_keys[i]` is an indexing
panic when out of bounds. -/
def segwitAssembleAux (caps : Caps Addr PrivKey) (prv_keys : List PrivKey) :
    List TxIn → List (Bytes × Bytes) → Nat → Except Err (List TxIn)
  | [], _, _ => .ok []
  | tin :: ins, wits, i =>
    match prv_keys.get? i with
    | none => .error (.panic "index out of bounds")
    | some prv_key =>
      match wits.get? i with
      | none => .error (.panic "index out of bounds")
      | some w =>
        let hash := caps.hash160 (caps.pubKeyBytes prv_key)
        match segwitAssembleAux caps prv_keys ins wits (i + 1) with
        | .error e => .error e
        | .ok rest =>
          .ok (⟨tin.previous_output, [22, 0, 20] ++ hash, tin.sequence,
                [w.1, w.2]⟩ :: rest)

/-- The segwit branch of `sign_transaction`. -/
def segwitBranch (caps : Caps Addr PrivKey) (t : BitcoinForkTransaction)
    (tx : Transaction) (prv_keys : List PrivKey) : Except Err (List TxIn) :=
  match BitcoinForkTransaction.witness_sign caps t tx prv_keys with
  | .error e => .error e
  | .ok witnesses => segwitAssembleAux caps prv_keys tx.input witnesses 0

/-- The legacy branch of `sign_transaction`: the computed scripts replace
the input scripts position-wise (`script_sigs_sign` always yields exactly
one script per input). -/
def legacyBranch (caps : Caps Addr PrivKey) (t : BitcoinForkTransaction)
    (tx : Transaction) (prv_keys : List PrivKey) : Except Err (List TxIn) :=
  match BitcoinForkTransaction.script_sigs_sign caps t tx prv_keys with
  | .error e => .error e
  | .ok sign_scripts =>
    .ok (List.zipWith
      (fun s tin => ⟨tin.previous_output, s, tin.sequence, []⟩)
      sign_scripts tx.input)

/-- Embeds the method `BitcoinForkTransaction::sign_transaction`: build
outputs then inputs, assemble the unsigned transaction with version 2 for
segwit and 1 otherwise and lock time 0, sign all inputs along the branch
selected by `is_seg_wit`, reassemble, serialize, and return the hex
serialization, the txid (double hash of the non-witness serialization) and
an always-empty witness txid. -/
def BitcoinForkTransaction.sign_transaction (caps : Caps Addr PrivKey)
    (t : BitcoinForkTransaction) (prv_keys : List PrivKey) (change_addr : Addr) :
    Except Err TxSignResult :=
  let change_script_pubkey := caps.scriptPubkey change_addr
  match BitcoinForkTransaction.tx_outs caps t change_script_pubkey with
  | .error e => .error e
  | .ok tx_outs =>
    match BitcoinForkTransaction.tx_inputs t with
    | .error e => .error e
    | .ok tx_inputs =>
      let version : Int := if t.is_seg_wit then 2 else 1
      let tx : Transaction := ⟨version, 0, tx_inputs, tx_outs⟩
      match (if t.is_seg_wit then segwitBranch caps t tx prv_keys
             else legacyBranch caps t tx prv_keys) with
      | .error e => .error e
      | .ok input_with_sigs =>
        let signed_tx : Transaction :=
          ⟨tx.version, tx.lock_time, input_with_sigs, tx.output⟩
        .ok ⟨bytesToHex (consensusSerialize signed_tx),
             bytesToHex (caps.sha256d (legacySerialize signed_tx)), ""⟩

/-- Embeds the trait impl `TransactionSigner::sign_transaction` for
`HdKeystore`, instrumented with the list of pipeline stages that completed
(in order) so that temporal claims about when key material is touched can be
stated.  The first component is exactly the Rust function's result. -/
def HdKeystore.sign_transaction_traced (ks : HdKeystore PrivKey)
    (caps : Caps Addr PrivKey) (tx : BitcoinForkTransaction)
    (password : Option String) : Except Err TxSignResult × List Step :=
  match ks.account (rustToUppercase tx.coin) with
  | none => (.error .accountNotFound, [])
  | some account =>
    match BitcoinForkTransaction.collect_prv_keys_paths caps tx
        account.derivation_path with
    | .error e => (.error e, [])
    | .ok paths =>
      match password with
      | none => (.error .invalidPassword, [.pathsResolved])
      | some pw =>
        match ks.key_at_paths (rustToUppercase tx.coin) paths pw with
        | .error s => (.error (.capFail s), [.pathsResolved, .passwordChecked])
        | .ok priv_keys =>
          match caps.xpubOfExtra account.extra with
          | .error s =>
            (.error (.capFail s),
             [.pathsResolved, .passwordChecked, .keysDerived])
          | .ok xpub =>
            match BitcoinForkTransaction.change_address caps tx xpub with
            | .error e =>
              (.error e,
               [.pathsResolved, .passwordChecked, .keysDerived, .xpubObtained])
            | .ok change_addr =>
              (BitcoinForkTransaction.sign_transaction caps tx priv_keys
                 change_addr,
               [.pathsResolved, .passwordChecked, .keysDerived, .xpubObtained,
                .changeAddrDerived])

end Engine

/-! ## V3 keystores (src/rust/chain/src/keystore.rs) -/

/-- Embeds `tcx_crypto::TokenError` as observed through the keystore API. -/
inductive TokenError where
  | invalidPassword
  | msg (s : String)
deriving DecidableEq, Repr

/-- Outcome type for keystore construction helpers: `panic` marks a Rust
`unwrap` being reached, `token` a returned `TokenError`. -/
inductive GenErr where
  | panic (s : String)
  | token (s : String)
deriving DecidableEq, Repr

/-- Modelled from the spec: the `tcx_crypto::Crypto` implementation (PBKDF2
key derivation, symmetric cipher with random IV, MAC verification) is not
among the provided sources, so it is idealized symbolically per §4.3 of the
spec: a ciphertext record carries the key derived from the creation password
together with the protected plaintext, and decryption re-derives the key
from the supplied password and models the MAC/integrity check as key
equality, failing with `InvalidPassword` on mismatch (never with a more
specific error). -/
structure Crypto where
  derivedKey : List Char
  cipherText : Bytes
deriving DecidableEq, Repr

/-- Modelled from the spec: the KDF is deterministic in the password; it is
represented by the password's character data (injective, as an ideal KDF is
collision-free on the modelled domain). -/
def deriveKey (password : String) : List Char := password.data

/-- Modelled from the spec: `Crypto::new(password, origin)`. -/
def Crypto.new (password : String) (origin : Bytes) : Crypto :=
  ⟨deriveKey password, origin⟩

/-- Modelled from the spec: `Crypto::decrypt(password)` — re-derive the key,
verify integrity, return the plaintext or `InvalidPassword`. -/
def Crypto.decrypt (c : Crypto) (password : String) : Except TokenError Bytes :=
  if deriveKey password = c.derivedKey then .ok c.cipherText
  else .error .invalidPassword

/-- Embeds `Metadata.source` (the only metadata field the keystore writes). -/
inductive Source where
  | wif
  | priv
  | keystore
  | mnemonic
  | newIdentity
  | recoveredIdentity
deriving DecidableEq, Repr

/-- Byte view of a Rust `&str` (`as_bytes`), modelled at codepoint level. -/
def strBytes (s : String) : Bytes := s.data.map Char.toNat

/-- Embeds `V3Keystore` (only fields the claims read). -/
structure V3Keystore where
  id : String
  version : Int
  address : String
  crypto : Crypto
  source : Source
deriving DecidableEq, Repr

/-- Embeds `V3Keystore::new`: encrypt the private-key string's bytes under
the password and derive the display address from the WIF string.
`generate_address_from_wif` calls `PrivateKey::from_wif(wif).unwrap()`, so a
WIF the codec rejects is a panic, modelled by the capability returning
`none`.  The random UUID is modelled by a fixed placeholder. -/
def V3Keystore.new (wifAddress : String → Option String)
    (password : String) (prv_key : String) : Except GenErr V3Keystore :=
  match wifAddress prv_key with
  | none => .error (.panic "unwrap")
  | some addr =>
    .ok ⟨"uuid-v4", 3, addr, Crypto.new password (strBytes prv_key), .wif⟩

/-- Embeds `Keystore::decrypt_cipher_text` for `V3Keystore`. -/
def V3Keystore.decrypt_cipher_text (ks : V3Keystore) (password : String) :
    Except TokenError Bytes :=
  ks.crypto.decrypt password

/-- Capabilities of `V3MnemonicKeystore::generate_prv_key_from_mnemonic`:
mnemonic validation, seed computation, BIP32 master-key construction, path
parsing and derivation.  The last three are unwrapped in the Rust code, so
their failures are panics, modelled with `Option`. -/
structure MnemonicCaps (XPrv PathV PrivKeyV : Type) where
  mnemonicOk : String → Bool
  seedOf : String → Bytes
  newMaster : Bytes → Option XPrv
  parsePath : String → Option PathV
  derivePriv : XPrv → PathV → Option PrivKeyV

/-- Embeds `V3MnemonicKeystore::generate_prv_key_from_mnemonic`: an invalid
mnemonic is a returned `TokenError`, while `ExtendedPrivKey::new_master(..)
.unwrap()`, `DerivationPath::from_str(path).unwrap()` and
`derive_priv(..).unwrap()` are panics. -/
def generate_prv_key_from_mnemonic {XPrv PathV PrivKeyV : Type}
    (mc : MnemonicCaps XPrv PathV PrivKeyV) (mnemonic_str : String)
    (path : String) : Except GenErr PrivKeyV :=
  if mc.mnemonicOk mnemonic_str then
    match mc.newMaster (mc.seedOf mnemonic_str) with
    | none => .error (.panic "unwrap")
    | some sk =>
      match mc.parsePath path with
      | none => .error (.panic "unwrap")
      | some p =>
        match mc.derivePriv sk p with
        | none => .error (.panic "unwrap")
        | some main_address_pk => .ok main_address_pk
  else .error (.token "invalid_mnemonic")

/-! ## Helpers for claim statements -/

/-- Extract the success value of an `Except`, with a fallback. -/
def okOr {E A : Type} (d : A) : Except E A → A
  | .ok a => a
  | .error _ => d

/-- The witness-txid field of a signing outcome, when successful. -/
def wtxIdOf : Except Err TxSignResult → Option String
  | .ok r => some r.wtx_id
  | .error _ => none

/-- Replace every Utxo's sequence field. -/
def withSeqs (t : BitcoinForkTransaction) (f : Utxo → Int) :
    BitcoinForkTransaction :=
  { t with unspents := t.unspents.map fun u => { u with sequence := f u } }

/-- Blank out a Utxo's locking-script text. -/
def eraseScript (u : Utxo) : Utxo := { u with script_pub_key := "" }

/-- Blank out every Utxo's locking-script text in a request. -/
def eraseScripts (t : BitcoinForkTransaction) : BitcoinForkTransaction :=
  { t with unspents := t.unspents.map eraseScript }

/-- Two Utxos that agree on every field except possibly the locking-script
text. -/
def UtxoEqExceptScript (u v : Utxo) : Prop :=
  u.tx_hash = v.tx_hash ∧ u.vout = v.vout ∧ u.amount = v.amount ∧
    u.address = v.address ∧ u.derived_path = v.derived_path ∧
    u.sequence = v.sequence

/-! ## Concrete fixtures used to instantiate universally quantified
theorems.  The capability record is a deterministic fake, as §9 of the spec
suggests for testing. -/

def caps0 : Caps Unit Unit where
  getAccountPath := fun s => .ok s
  addrFromStr := fun _ => .ok ()
  scriptPubkey := fun _ => [170]
  convertToLegacy := fun _ => .ok ()
  derivePubKeyAtPath := fun _ _ => .ok [7]
  addressLike := fun _ _ => .ok ()
  networkFromCoin := fun _ => some ⟨0⟩
  p2pkh := fun _ _ => .ok ()
  ecSign := fun _ _ => .ok [9, 9]
  pubKeyBytes := fun _ => [2, 2]
  sha256d := fun _ => [5]
  hash160 := fun _ => [4]
  sighashAll := fun _ _ _ _ _ => [6]
  xpubOfExtra := fun _ => .ok "xpub0"

def kc0 : HdKeystore Unit where
  account := fun _ => some ⟨"acct-path", "acct-extra"⟩
  key_at_paths := fun _ paths _ => .ok (paths.map fun _ => ())

def u_ok : Utxo :=
  ⟨"0000000000000000000000000000000000000000000000000000000000000000",
   0, 50000, "addr-first", "76a914spk88ac", "0/1", 0⟩

def t_leg : BitcoinForkTransaction :=
  ⟨"addr-dest", 15000, [u_ok], "", 1000, 0, "BCH", false⟩

def t_seg : BitcoinForkTransaction :=
  ⟨"addr-dest", 15000, [u_ok], "", 1000, 0, "LTC", true⟩

def t_funds : BitcoinForkTransaction :=
  ⟨"addr-dest", 60000, [u_ok], "", 1000, 0, "BCH", false⟩

def t_empty : BitcoinForkTransaction :=
  ⟨"addr-dest", 1, [], "", 0, 0, "BCH", false⟩

def t_badhash : BitcoinForkTransaction :=
  ⟨"addr-dest", 15000,
   [⟨"zz-not-hex", 0, 50000, "addr-first", "spk", "0/1", 0⟩],
   "", 1000, 0, "BCH", false⟩

def t_leg_scripts : BitcoinForkTransaction :=
  ⟨"addr-dest", 15000,
   [⟨"0000000000000000000000000000000000000000000000000000000000000000",
     0, 50000, "addr-first", "another-script", "0/1", 0⟩],
   "", 1000, 0, "BCH", false⟩

def mc0 : MnemonicCaps Unit Unit Unit :=
  ⟨fun _ => true, fun _ => [], fun _ => some (), fun _ => none,
   fun _ _ => some ()⟩

/-! ## Generic lemmas about the engine -/

section Lemmas

variable {Addr PrivKey : Type}

lemma string_data_eq {a b : String} (h : a.data = b.data) : a = b := by
  cases a; cases b; simp_all

/-- Shape of every error the method `sign_transaction` can produce apart
from the insufficient-funds check: an unsupported chain, a propagated
capability failure, or a panic. -/
def SignErrShape (e : Err) : Prop :=
  e = .unsupportedChain ∨ (∃ s, e = .capFail s) ∨ (∃ s, e = .panic s)

lemma SignErrShape.ne_funds {e : Err} (h : SignErrShape e) :
    e ≠ .insufficientFunds := by
  rcases h with rfl | ⟨s, rfl⟩ | ⟨s, rfl⟩ <;> simp

lemma SignErrShape.ne_path {e : Err} (h : SignErrShape e) :
    e ≠ .malformedUtxoPath := by
  rcases h with rfl | ⟨s, rfl⟩ | ⟨s, rfl⟩ <;> simp

lemma receive_script_pubkey_error (caps : Caps Addr PrivKey)
    (t : BitcoinForkTransaction) (e : Err)
    (h : BitcoinForkTransaction.receive_script_pubkey caps t = .error e) :
    SignErrShape e := by
  unfold BitcoinForkTransaction.receive_script_pubkey at h
  split at h
  · cases h; simp [SignErrShape]
  · exact absurd h (by simp)

lemma fork_id_error (caps : Caps Addr PrivKey) (t : BitcoinForkTransaction)
    (e : Err) (h : BitcoinForkTransaction.fork_id caps t = .error e) :
    e = .unsupportedChain := by
  unfold BitcoinForkTransaction.fork_id at h
  split at h
  · exact (Except.error.inj h).symm
  · exact absurd h (by simp)

lemma sign_hash_and_pub_key_error (caps : Caps Addr PrivKey)
    (t : BitcoinForkTransaction) (k : PrivKey) (hash : Bytes) (e : Err)
    (h : BitcoinForkTransaction.sign_hash_and_pub_key caps t k hash = .error e) :
    SignErrShape e := by
  unfold BitcoinForkTransaction.sign_hash_and_pub_key at h
  split at h
  · cases h; simp [SignErrShape]
  · split at h
    · cases h
      rename_i heq
      rw [fork_id_error caps t _ heq]
      exact Or.inl rfl
    · exact absurd h (by simp)

lemma txInputsAux_error (us : List Utxo) (e : Err)
    (h : txInputsAux us = .error e) : e = .panic "unwrap" := by
  induction us with
  | nil => exact absurd h (by simp [txInputsAux])
  | cons u us ih =>
    unfold txInputsAux at h
    split at h
    · exact (Except.error.inj h).symm
    · split at h
      · rename_i heq
        cases h
        exact ih heq
      · exact absurd h (by simp)

lemma scriptSigSignOne_error (caps : Caps Addr PrivKey)
    (t : BitcoinForkTransaction) (tx : Transaction) (keys : List PrivKey)
    (i : Nat) (e : Err)
    (h : scriptSigSignOne caps t tx keys i = .error e) :
    SignErrShape e := by
  unfold scriptSigSignOne at h
  simp only [] at h
  split at h
  · cases h; simp [SignErrShape]
  · split at h
    · cases h; simp [SignErrShape]
    · split at h
      · rename_i heq
        cases h
        rw [fork_id_error caps t _ heq]
        exact Or.inl rfl
      · split at h
        · cases h; simp [SignErrShape]
        · split at h
          · cases h; simp [SignErrShape]
          · split at h
            · rename_i heq
              cases h
              exact sign_hash_and_pub_key_error caps t _ _ _ heq
            · exact absurd h (by simp)

lemma scriptSigsRange_error (caps : Caps Addr PrivKey)
    (t : BitcoinForkTransaction) (tx : Transaction) (keys : List PrivKey)
    (n i : Nat) (e : Err)
    (h : scriptSigsRange caps t tx keys i n = .error e) :
    SignErrShape e := by
  induction n generalizing i with
  | zero => exact absurd h (by simp [scriptSigsRange])
  | succ n ih =>
    unfold scriptSigsRange at h
    split at h
    · rename_i heq
      cases h
      exact scriptSigSignOne_error caps t tx keys _ _ heq
    · split at h
      · rename_i heq
        cases h
        exact ih _ heq
      · exact absurd h (by simp)

lemma witnessSignOne_error (caps : Caps Addr PrivKey)
    (t : BitcoinForkTransaction) (tx : Transaction) (keys : List PrivKey)
    (i : Nat) (e : Err)
    (h : witnessSignOne caps t tx keys i = .error e) :
    SignErrShape e := by
  unfold witnessSignOne at h
  simp only [] at h
  split at h
  · cases h; simp [SignErrShape]
  · split at h
    · cases h; simp [SignErrShape]
    · split at h
      · cases h; simp [SignErrShape]
      · split at h
        · rename_i heq
          cases h
          rw [fork_id_error caps t _ heq]
          exact Or.inl rfl
        · exact sign_hash_and_pub_key_error caps t _ _ _ h

lemma witnessRange_error (caps : Caps Addr PrivKey)
    (t : BitcoinForkTransaction) (tx : Transaction) (keys : List PrivKey)
    (n i : Nat) (e : Err)
    (h : witnessRange caps t tx keys i n = .error e) :
    SignErrShape e := by
  induction n generalizing i with
  | zero => exact absurd h (by simp [witnessRange])
  | succ n ih =>
    unfold witnessRange at h
    split at h
    · rename_i heq
      cases h
      exact witnessSignOne_error caps t tx keys _ _ heq
    · split at h
      · rename_i heq
        cases h
        exact ih _ heq
      · exact absurd h (by simp)

lemma segwitAssembleAux_error (caps : Caps Addr PrivKey)
    (keys : List PrivKey) (ins : List TxIn) (wits : List (Bytes × Bytes))
    (i : Nat) (e : Err)
    (h : segwitAssembleAux caps keys ins wits i = .error e) :
    SignErrShape e := by
  induction ins generalizing i with
  | nil => exact absurd h (by simp [segwitAssembleAux])
  | cons tin ins ih =>
    unfold segwitAssembleAux at h
    simp only [] at h
    split at h
    · cases h; simp [SignErrShape]
    · split at h
      · cases h; simp [SignErrShape]
      · split at h
        · rename_i heq
          cases h
          exact ih _ heq
        · exact absurd h (by simp)

lemma legacyBranch_error (caps : Caps Addr PrivKey)
    (t : BitcoinForkTransaction) (tx : Transaction) (keys : List PrivKey)
    (e : Err) (h : legacyBranch caps t tx keys = .error e) :
    SignErrShape e := by
  unfold legacyBranch BitcoinForkTransaction.script_sigs_sign at h
  split at h
  · rename_i heq
    cases h
    exact scriptSigsRange_error caps t tx keys _ _ _ heq
  · exact absurd h (by simp)

lemma segwitBranch_error (caps : Caps Addr PrivKey)
    (t : BitcoinForkTransaction) (tx : Transaction) (keys : List PrivKey)
    (e : Err) (h : segwitBranch caps t tx keys = .error e) :
    SignErrShape e := by
  unfold segwitBranch BitcoinForkTransaction.witness_sign at h
  split at h
  · rename_i heq
    cases h
    exact witnessRange_error caps t tx keys _ _ _ heq
  · exact segwitAssembleAux_error caps keys tx.input _ _ _ h

lemma tx_outs_insufficient (caps : Caps Addr PrivKey)
    (t : BitcoinForkTransaction) (cs : Bytes) :
    BitcoinForkTransaction.tx_outs caps t cs = .error .insufficientFunds ↔
      sumAmounts t.unspents < t.amount + t.fee := by
  unfold BitcoinForkTransaction.tx_outs
  simp only []
  by_cases hge : sumAmounts t.unspents ≥ t.amount + t.fee
  · rw [if_pos hge]
    constructor
    · intro h
      split at h
      · rename_i e₀ heq
        exact absurd (Except.error.inj h)
          (receive_script_pubkey_error caps t e₀ heq).ne_funds
      · split at h <;> exact absurd h (by simp)
    · intro h
      exact absurd h (by omega)
  · rw [if_neg hge]
    constructor
    · intro _; omega
    · intro _; rfl

lemma sign_transaction_insufficient (caps : Caps Addr PrivKey)
    (t : BitcoinForkTransaction) (keys : List PrivKey) (change_addr : Addr) :
    BitcoinForkTransaction.sign_transaction caps t keys change_addr =
        .error .insufficientFunds ↔
      sumAmounts t.unspents < t.amount + t.fee := by
  unfold BitcoinForkTransaction.sign_transaction
  simp only []
  constructor
  · intro h
    split at h
    · rename_i heq
      obtain rfl := Except.error.inj h
      exact (tx_outs_insufficient caps t _).mp heq
    · split at h
      · rename_i heq
        obtain rfl := (Except.error.inj h).symm
        exact absurd (txInputsAux_error _ _ heq) (by simp)
      · split at h
        · rename_i heq
          obtain rfl := (Except.error.inj h).symm
          cases hb : t.is_seg_wit <;> simp only [hb] at heq <;>
            simp only [Bool.false_eq_true, if_false, if_true] at heq
          · exact absurd rfl (legacyBranch_error caps t _ keys _ heq).ne_funds
          · exact absurd rfl (segwitBranch_error caps t _ keys _ heq).ne_funds
        · exact absurd h (by simp)
  · intro h
    have htx : BitcoinForkTransaction.tx_outs caps t
        (caps.scriptPubkey change_addr) = .error .insufficientFunds :=
      (tx_outs_insufficient caps t _).mpr h
    rw [htx]

lemma collectAux_error (ap : String) (us : List Utxo) (e : Err)
    (h : collectAux ap us = .error e) : e = .malformedUtxoPath := by
  induction us with
  | nil => exact absurd h (by simp [collectAux])
  | cons u us ih =>
    unfold collectAux at h
    simp only [] at h
    split at h
    · split at h
      · rename_i heq
        obtain rfl := (Except.error.inj h).symm
        exact ih heq
      · exact absurd h (by simp)
    · exact (Except.error.inj h).symm

lemma collect_error (caps : Caps Addr PrivKey) (t : BitcoinForkTransaction)
    (path : String) (e : Err)
    (h : BitcoinForkTransaction.collect_prv_keys_paths caps t path = .error e) :
    e = .malformedUtxoPath ∨ SignErrShape e := by
  unfold BitcoinForkTransaction.collect_prv_keys_paths at h
  split at h
  · cases h
    exact Or.inr (Or.inr (Or.inl ⟨_, rfl⟩))
  · exact Or.inl (collectAux_error _ _ _ h)

lemma change_address_error (caps : Caps Addr PrivKey)
    (t : BitcoinForkTransaction) (xpub : String) (e : Err)
    (h : BitcoinForkTransaction.change_address caps t xpub = .error e) :
    SignErrShape e := by
  unfold BitcoinForkTransaction.change_address at h
  split at h
  · cases h; simp [SignErrShape]
  · split at h
    · cases h; simp [SignErrShape]
    · split at h
      · cases h; simp [SignErrShape]
      · split at h
        · cases h; simp [SignErrShape]
        · exact absurd h (by simp)

lemma tx_outs_error (caps : Caps Addr PrivKey) (t : BitcoinForkTransaction)
    (cs : Bytes) (e : Err)
    (h : BitcoinForkTransaction.tx_outs caps t cs = .error e) :
    e = .insufficientFunds ∨ SignErrShape e := by
  unfold BitcoinForkTransaction.tx_outs at h
  simp only [] at h
  split at h
  · split at h
    · rename_i heq
      cases h
      exact Or.inr (receive_script_pubkey_error caps t _ heq)
    · split at h <;> exact absurd h (by simp)
  · exact Or.inl (Except.error.inj h).symm

lemma sign_transaction_error (caps : Caps Addr PrivKey)
    (t : BitcoinForkTransaction) (keys : List PrivKey) (change_addr : Addr)
    (e : Err)
    (h : BitcoinForkTransaction.sign_transaction caps t keys change_addr =
      .error e) : e = .insufficientFunds ∨ SignErrShape e := by
  unfold BitcoinForkTransaction.sign_transaction at h
  simp only [] at h
  split at h
  · rename_i heq
    obtain rfl := (Except.error.inj h).symm
    exact tx_outs_error caps t _ _ heq
  · split at h
    · rename_i heq
      obtain rfl := (Except.error.inj h).symm
      rw [txInputsAux_error _ _ heq]
      exact Or.inr (Or.inr (Or.inr ⟨_, rfl⟩))
    · split at h
      · rename_i heq
        obtain rfl := (Except.error.inj h).symm
        cases hb : t.is_seg_wit <;> simp only [hb] at heq <;>
          simp only [Bool.false_eq_true, if_false, if_true] at heq
        · exact Or.inr (legacyBranch_error caps t _ keys _ heq)
        · exact Or.inr (segwitBranch_error caps t _ keys _ heq)
      · exact absurd h (by simp)

lemma sign_transaction_ok_wtx (caps : Caps Addr PrivKey)
    (t : BitcoinForkTransaction) (keys : List PrivKey) (change_addr : Addr)
    (r : TxSignResult)
    (h : BitcoinForkTransaction.sign_transaction caps t keys change_addr =
      .ok r) : r.wtx_id = "" := by
  unfold BitcoinForkTransaction.sign_transaction at h
  simp only [] at h
  split at h
  · exact absurd h (by simp)
  · split at h
    · exact absurd h (by simp)
    · split at h
      · exact absurd h (by simp)
      · obtain rfl := Except.ok.inj h
        rfl

end Lemmas

/-! ## Claim C4 -/

/-- Claim C4 (code bug): the claim — and the repository's own test
`serialize_dynmaic_vec` — state that the empty sequence encodes to the
single 4-byte header `04000000`, with the header of `(count+1)` little-endian
offsets whose first entry is `4 + 4*count`.  The code instead computes the
header length as `4*4*count`, writes the running total first, and then a
`(count+1)`-entry offsets list, so the empty vector encodes to eight zero
bytes `0000000000000000`.  This theorem evaluates the embedded source
function at the failing input. -/
theorem serialize_dynamic_vec_empty_is_eight_zero_bytes :
    Serializer.serialize_dynamic_vec [] = [0, 0, 0, 0, 0, 0, 0, 0] ∧
      Serializer.serialize_dynamic_vec [] ≠ [4, 0, 0, 0] := by
  constructor
  · rfl
  · decide

/-! ## Claim C7 -/

/-- Claim C7 (confirmed, against the spec-modelled `tcx_crypto::Crypto`):
decrypting the keystore produced by `V3Keystore::new(password, secret)` with
the same password returns exactly the secret's bytes, and decrypting with
any different password fails with the `InvalidPassword` error kind. -/
theorem v3keystore_roundtrip (wifAddress : String → Option String)
    (password prv_key : String) (ks : V3Keystore)
    (hnew : V3Keystore.new wifAddress password prv_key = .ok ks) :
    V3Keystore.decrypt_cipher_text ks password = .ok (strBytes prv_key) ∧
      ∀ other : String, other ≠ password →
        V3Keystore.decrypt_cipher_text ks other = .error .invalidPassword := by
  unfold V3Keystore.new at hnew
  split at hnew
  · exact absurd hnew (by simp)
  · cases hnew
    constructor
    · unfold V3Keystore.decrypt_cipher_text Crypto.decrypt Crypto.new
      simp
    · intro other hne
      unfold V3Keystore.decrypt_cipher_text Crypto.decrypt Crypto.new
      simp only [deriveKey]
      rw [if_neg]
      intro hdata
      exact hne (string_data_eq hdata)

def wif0 : String → Option String := fun _ => some "1FakeAddress"

/-! ## Claim C1 -/

/-- Claim C1 (counterexample to the claim as stated): a signing request with
an empty Utxo set has `sum(amounts) = 0 < amount + fee`, yet the call does
not fail with `InsufficientFunds` — it dies in `change_address` on the
`expect("first_utxo")` panic before the funds check is ever reached, because
path resolution, unlock and change-address derivation all precede
`tx_outs`. -/
theorem c1_counterexample :
    sumAmounts t_empty.unspents < t_empty.amount + t_empty.fee ∧
      (HdKeystore.sign_transaction_traced kc0 caps0 t_empty
          (some "pw")).fst = .error (.panic "first_utxo") := by
  constructor
  · decide
  · rfl

/-- Claim C1 (amended): provided the request passes the stages that precede
output construction — the account exists, every Utxo's relative path splits
into exactly two components, a password is supplied, key derivation, xpub
extraction and change-address derivation succeed — signing fails with
`InsufficientFunds` exactly when the Utxo amounts sum to strictly less than
`amount + fee`; and whenever the sum is at least `amount + fee` no
insufficient-funds error can arise anywhere in the call. -/
theorem c1_insufficient_funds_iff {Addr PrivKey : Type}
    (kc : HdKeystore PrivKey) (caps : Caps Addr PrivKey)
    (t : BitcoinForkTransaction) (pw : String) (acct : Account)
    (paths : List String) (keys : List PrivKey) (xpub : String) (caddr : Addr)
    (h1 : kc.account (rustToUppercase t.coin) = some acct)
    (h2 : BitcoinForkTransaction.collect_prv_keys_paths caps t
      acct.derivation_path = .ok paths)
    (h3 : kc.key_at_paths (rustToUppercase t.coin) paths pw = .ok keys)
    (h4 : caps.xpubOfExtra acct.extra = .ok xpub)
    (h5 : BitcoinForkTransaction.change_address caps t xpub = .ok caddr) :
    (HdKeystore.sign_transaction_traced kc caps t (some pw)).fst =
        .error .insufficientFunds ↔
      sumAmounts t.unspents < t.amount + t.fee := by
  simp only [HdKeystore.sign_transaction_traced, h1, h2, h3, h4, h5]
  exact sign_transaction_insufficient caps t keys caddr

/-- Witness for the amended C1 at a concrete underfunded request. -/
theorem c1_insufficient_funds_iff_witness :
    (HdKeystore.sign_transaction_traced kc0 caps0 t_funds (some "pw")).fst =
        .error .insufficientFunds ↔
      sumAmounts t_funds.unspents < t_funds.amount + t_funds.fee :=
  c1_insufficient_funds_iff kc0 caps0 t_funds "pw" ⟨"acct-path", "acct-extra"⟩
    ["acct-path/0/1"] [()] "xpub0" () rfl rfl rfl rfl rfl

/-! ## Claim C5 -/

/-- Claim C5 (counterexample to the claim as stated): on a concrete request
whose Utxo amounts sum to less than `amount + fee` the call does fail with
`InsufficientFunds`, but only after the whole unlock stage has completed —
the recorded trace shows the master secret was decrypted and the per-input
keys were derived (`keysDerived`), the xpub extracted and the change address
derived before the funds check ran. -/
theorem c5_counterexample :
    HdKeystore.sign_transaction_traced kc0 caps0 t_funds (some "pw") =
      (.error .insufficientFunds,
       [.pathsResolved, .passwordChecked, .keysDerived, .xpubObtained,
        .changeAddrDerived]) ∧
      sumAmounts t_funds.unspents < t_funds.amount + t_funds.fee := by
  constructor
  · rfl
  · decide

/-- Claim C5 (amended): path resolution does precede the unlock step — a
malformed-Utxo-path failure happens before any key material is touched
(its trace is empty) — but the insufficient-funds validation lives in
output construction, after the unlock step: whenever the call fails with
`InsufficientFunds`, the trace already contains the key-derivation stage. -/
theorem c5_fail_fast_order {Addr PrivKey : Type} (kc : HdKeystore PrivKey)
    (caps : Caps Addr PrivKey) (t : BitcoinForkTransaction)
    (password : Option String) :
    ((HdKeystore.sign_transaction_traced kc caps t password).fst =
        .error .insufficientFunds →
      Step.keysDerived ∈
        (HdKeystore.sign_transaction_traced kc caps t password).snd) ∧
    ((HdKeystore.sign_transaction_traced kc caps t password).fst =
        .error .malformedUtxoPath →
      (HdKeystore.sign_transaction_traced kc caps t password).snd = []) := by
  unfold HdKeystore.sign_transaction_traced
  split
  · exact ⟨fun h => absurd (Except.error.inj h) (by simp), fun _ => rfl⟩
  · split
    · rename_i heq
      refine ⟨fun h => ?_, fun _ => rfl⟩
      have he := Except.error.inj h
      subst he
      rcases collect_error caps t _ _ heq with hc | hc
      · exact absurd hc (by simp)
      · exact absurd rfl hc.ne_funds
    · split
      · exact ⟨fun h => absurd (Except.error.inj h) (by simp),
               fun h => absurd (Except.error.inj h) (by simp)⟩
      · split
        · exact ⟨fun h => absurd (Except.error.inj h) (by simp),
                 fun h => absurd (Except.error.inj h) (by simp)⟩
        · split
          · exact ⟨fun h => absurd (Except.error.inj h) (by simp),
                   fun h => absurd (Except.error.inj h) (by simp)⟩
          · split
            · rename_i heq
              refine ⟨fun h => ?_, fun h => ?_⟩
              · have he := Except.error.inj h
                subst he
                exact absurd rfl (change_address_error caps t _ _ heq).ne_funds
              · have he := Except.error.inj h
                subst he
                exact absurd rfl (change_address_error caps t _ _ heq).ne_path
            · refine ⟨fun _ => by simp, fun h => ?_⟩
              rcases sign_transaction_error caps t _ _ _ h with hc | hc
              · exact absurd hc (by simp)
              · exact absurd rfl hc.ne_path

/-- Witness for the amended C5: at the concrete underfunded request the
key-derivation stage is in the trace of the InsufficientFunds failure. -/
theorem c5_fail_fast_order_witness :
    Step.keysDerived ∈
      (HdKeystore.sign_transaction_traced kc0 caps0 t_funds (some "pw")).snd :=
  (c5_fail_fast_order kc0 caps0 t_funds (some "pw")).1 rfl

/-! ## Claim C6 -/

/-- Claim C6 (counterexample to the claim as stated): a concrete segwit
signing call succeeds, yet the returned witness transaction id is the empty
string — `sign_transaction` always fills `wtx_id` with `""`, segwit or
not. -/
theorem c6_counterexample :
    t_seg.is_seg_wit = true ∧
      wtxIdOf
          (HdKeystore.sign_transaction_traced kc0 caps0 t_seg
            (some "pw")).fst = some "" := by
  constructor
  · rfl
  · rfl

/-- Claim C6 (amended): every successful signing call — segwit included —
returns the empty string as the witness transaction id; the result carries
only the serialized hex and the transaction id computed from the
non-witness serialization. -/
theorem c6_wtx_id_always_empty {Addr PrivKey : Type} (kc : HdKeystore PrivKey)
    (caps : Caps Addr PrivKey) (t : BitcoinForkTransaction)
    (password : Option String) (r : TxSignResult)
    (h : (HdKeystore.sign_transaction_traced kc caps t password).fst = .ok r) :
    r.wtx_id = "" := by
  unfold HdKeystore.sign_transaction_traced at h
  split at h
  · exact absurd h (by simp)
  · split at h
    · exact absurd h (by simp)
    · split at h
      · exact absurd h (by simp)
      · split at h
        · exact absurd h (by simp)
        · split at h
          · exact absurd h (by simp)
          · split at h
            · exact absurd h (by simp)
            · exact sign_transaction_ok_wtx caps t _ _ r h

/-- Witness for the amended C6 at the concrete segwit request. -/
theorem c6_wtx_id_always_empty_witness :
    (okOr ⟨"", "", "x"⟩
        (HdKeystore.sign_transaction_traced kc0 caps0 t_seg
          (some "pw")).fst).wtx_id = "" :=
  c6_wtx_id_always_empty kc0 caps0 t_seg (some "pw") _ rfl

/-! ## Claim C2 -/

/-- Claim C2 (confirmed): on the success path (first Utxo present, the
address conversions, the public-key derivation at relative path
`0/<changeIndex>` from the account xpub and the destination-address parse
all succeed, and the funds check passes), the change address is the one
derived at `0/<changeIndex>` and the output list carries a second, change
output paying `total - amount - fee` to that address's script exactly when
that excess exceeds the dust constant 546; otherwise only the destination
output is built and the excess is left to the fee. -/
theorem c2_change_output_iff_dust {Addr PrivKey : Type}
    (caps : Caps Addr PrivKey) (t : BitcoinForkTransaction) (xpub : String)
    (u0 : Utxo) (from_addr chg recv_addr : Addr) (pk : Bytes)
    (h0 : t.unspents.head? = some u0)
    (hconv : caps.convertToLegacy u0.address = .ok from_addr)
    (hderiv : caps.derivePubKeyAtPath xpub
      ("0/" ++ toString t.change_idx) = .ok pk)
    (hlike : caps.addressLike from_addr pk = .ok chg)
    (hrecv : caps.addrFromStr t.to = .ok recv_addr)
    (hsum : sumAmounts t.unspents ≥ t.amount + t.fee) :
    BitcoinForkTransaction.change_address caps t xpub = .ok chg ∧
      BitcoinForkTransaction.tx_outs caps t (caps.scriptPubkey chg) =
        .ok (if sumAmounts t.unspents - t.amount - t.fee > 546 then
              [⟨i64ToU64 t.amount, caps.scriptPubkey recv_addr⟩,
               ⟨i64ToU64 (sumAmounts t.unspents - t.amount - t.fee),
                caps.scriptPubkey chg⟩]
             else [⟨i64ToU64 t.amount, caps.scriptPubkey recv_addr⟩]) := by
  constructor
  · unfold BitcoinForkTransaction.change_address
    simp only [h0, hconv, hderiv, hlike]
  · unfold BitcoinForkTransaction.tx_outs
      BitcoinForkTransaction.receive_script_pubkey
    simp only [hrecv]
    rw [if_pos hsum]
    by_cases hc : sumAmounts t.unspents - t.amount - t.fee > 546
    · rw [if_pos hc, if_pos hc]
    · rw [if_neg hc, if_neg hc]

/-- Witness for C2 at a concrete request whose excess exceeds the dust
threshold. -/
theorem c2_change_output_iff_dust_witness :
    BitcoinForkTransaction.change_address caps0 t_leg "xp" = .ok () ∧
      BitcoinForkTransaction.tx_outs caps0 t_leg (caps0.scriptPubkey ()) =
        .ok (if sumAmounts t_leg.unspents - t_leg.amount - t_leg.fee > 546 then
              [⟨i64ToU64 t_leg.amount, caps0.scriptPubkey ()⟩,
               ⟨i64ToU64 (sumAmounts t_leg.unspents - t_leg.amount - t_leg.fee),
                caps0.scriptPubkey ()⟩]
             else [⟨i64ToU64 t_leg.amount, caps0.scriptPubkey ()⟩]) :=
  c2_change_output_iff_dust caps0 t_leg "xp" u_ok () () () [7]
    rfl rfl rfl rfl rfl (by decide)

/-! ## Claims C3 and C9: helper lemmas -/

section RangeLemmas

variable {Addr PrivKey : Type}

lemma txInputsAux_length (us : List Utxo) (ins : List TxIn)
    (h : txInputsAux us = .ok ins) : ins.length = us.length := by
  induction us generalizing ins with
  | nil =>
    unfold txInputsAux at h
    cases h
    rfl
  | cons u us ih =>
    unfold txInputsAux at h
    split at h
    · exact absurd h (by simp)
    · split at h
      · exact absurd h (by simp)
      · rename_i heq
        cases h
        simp [ih _ heq]

lemma txInputsAux_get (us : List Utxo) (ins : List TxIn)
    (h : txInputsAux us = .ok ins) (i : Nat) (u : Utxo)
    (hu : us.get? i = some u) :
    ∃ hsh, hash256FromHex u.tx_hash = some hsh ∧
      ins.get? i = some ⟨⟨hsh, i32ToU32 u.vout⟩, [], 4294967295, []⟩ := by
  induction us generalizing ins i with
  | nil => exact absurd hu (by simp)
  | cons v us ih =>
    unfold txInputsAux at h
    cases hhex : hash256FromHex v.tx_hash with
    | none => rw [hhex] at h; exact absurd h (by simp)
    | some txid =>
      rw [hhex] at h
      cases hrest : txInputsAux us with
      | error e => rw [hrest] at h; exact absurd h (by simp)
      | ok rest =>
        rw [hrest] at h
        obtain rfl := Except.ok.inj h
        cases i with
        | zero =>
          obtain rfl : v = u := by simpa using hu
          exact ⟨txid, hhex, rfl⟩
        | succ i =>
          simp only [List.get?_cons_succ] at hu ⊢
          exact ih _ hrest i hu

lemma txInputsAux_seq_independent (f : Utxo → Int) (us : List Utxo) :
    txInputsAux (us.map fun u => { u with sequence := f u }) =
      txInputsAux us := by
  induction us with
  | nil => rfl
  | cons u us ih =>
    unfold txInputsAux
    simp only [List.map_cons]
    rw [ih]

lemma scriptSigsRange_get (caps : Caps Addr PrivKey)
    (t : BitcoinForkTransaction) (tx : Transaction) (keys : List PrivKey)
    (n : Nat) : ∀ (i : Nat) (l : List Bytes),
    scriptSigsRange caps t tx keys i n = .ok l →
    ∀ j, j < n → ∃ v, scriptSigSignOne caps t tx keys (i + j) = .ok v ∧
      l.get? j = some v := by
  induction n with
  | zero => intro i l _ j hj; omega
  | succ n ih =>
    intro i l h j hj
    unfold scriptSigsRange at h
    cases hone : scriptSigSignOne caps t tx keys i with
    | error e => rw [hone] at h; exact absurd h (by simp)
    | ok s =>
      rw [hone] at h
      cases hrest : scriptSigsRange caps t tx keys (i + 1) n with
      | error e => rw [hrest] at h; exact absurd h (by simp)
      | ok rest =>
        rw [hrest] at h
        obtain rfl := Except.ok.inj h
        cases j with
        | zero => exact ⟨s, by simpa using hone, rfl⟩
        | succ j =>
          obtain ⟨v, hv, hget⟩ := ih (i + 1) rest hrest j (by omega)
          exact ⟨v, by rwa [Nat.add_assoc, Nat.add_comm 1 j] at hv, hget⟩

end RangeLemmas

/-! ## Claim C9 -/

/-- Claim C9 (confirmed): on success, the assembled unsigned transaction
has exactly one input per Utxo, in order, each referencing the Utxo's
parsed previous transaction hash and its output index (cast to `u32`), with
an empty unlocking script, the maximal sequence number 0xFFFFFFFF and no
witness data; and replacing every Utxo's `sequence` field by arbitrary
values (the wire format defaults it to 0 when absent) leaves the assembled
inputs unchanged. -/
theorem c9_tx_inputs_shape (t : BitcoinForkTransaction) (ins : List TxIn)
    (h : BitcoinForkTransaction.tx_inputs t = .ok ins) :
    ins.length = t.unspents.length ∧
      (∀ i u, t.unspents.get? i = some u →
        ∃ hsh, hash256FromHex u.tx_hash = some hsh ∧
          ins.get? i = some ⟨⟨hsh, i32ToU32 u.vout⟩, [], 4294967295, []⟩) ∧
      (∀ f : Utxo → Int,
        BitcoinForkTransaction.tx_inputs (withSeqs t f) = .ok ins) := by
  refine ⟨txInputsAux_length _ _ h, fun i u hu => txInputsAux_get _ _ h i u hu,
    fun f => ?_⟩
  unfold BitcoinForkTransaction.tx_inputs at h ⊢
  unfold withSeqs
  simp only []
  rw [txInputsAux_seq_independent]
  exact h

/-- Witness for C9 at the concrete legacy request. -/
theorem c9_tx_inputs_shape_witness :
    (okOr [] (BitcoinForkTransaction.tx_inputs t_leg)).length =
        t_leg.unspents.length ∧
      (∀ i u, t_leg.unspents.get? i = some u →
        ∃ hsh, hash256FromHex u.tx_hash = some hsh ∧
          (okOr [] (BitcoinForkTransaction.tx_inputs t_leg)).get? i =
            some ⟨⟨hsh, i32ToU32 u.vout⟩, [], 4294967295, []⟩) ∧
      (∀ f : Utxo → Int,
        BitcoinForkTransaction.tx_inputs (withSeqs t_leg f) =
          .ok (okOr [] (BitcoinForkTransaction.tx_inputs t_leg))) :=
  c9_tx_inputs_shape t_leg _ rfl

/-! ## Claim C3 -/

/-- Claim C3 (confirmed): in the non-segwit path, with the unsigned
transaction assembled from the built outputs and inputs at version 1, each
input's signature hash is the pre-segwit sighash (`signature_hash`: the
input's own P2PKH locking script — reconstructed from that input's derived
public key — substituted in, all other input scripts emptied, hash type
`0x01 | forkId` appended, double-SHA256) and the produced unlocking script
is exactly `push(signature ‖ hashTypeByte) push(publicKey)` with the
one-byte suffix equal to `0x01 | forkId`. -/
theorem c3_legacy_sighash_and_script {Addr PrivKey : Type}
    (caps : Caps Addr PrivKey) (t : BitcoinForkTransaction)
    (keys : List PrivKey) (cs : Bytes) (outs : List TxOut) (ins : List TxIn)
    (scripts : List Bytes) (i : Nat) (u : Utxo) (k : PrivKey) (nw : Network)
    (fa : Addr) (sig : Bytes)
    (_h_sw : t.is_seg_wit = false)
    (_h_outs : BitcoinForkTransaction.tx_outs caps t cs = .ok outs)
    (h_ins : BitcoinForkTransaction.tx_inputs t = .ok ins)
    (h_run : BitcoinForkTransaction.script_sigs_sign caps t
      ⟨1, 0, ins, outs⟩ keys = .ok scripts)
    (h_u : t.unspents.get? i = some u)
    (h_k : keys.get? i = some k)
    (h_nw : caps.networkFromCoin t.coin = some nw)
    (h_fa : caps.p2pkh (caps.pubKeyBytes k) nw = .ok fa)
    (h_sig : caps.ecSign k (signature_hash caps.sha256d ⟨1, 0, ins, outs⟩ i
      (caps.scriptPubkey fa) (Nat.lor 1 nw.fork_id)) = .ok sig) :
    scripts.get? i = some (pushSlice (sig ++ [Nat.lor 1 nw.fork_id]) ++
      pushSlice (caps.pubKeyBytes k)) := by
  have hone : scriptSigSignOne caps t ⟨1, 0, ins, outs⟩ keys i =
      .ok (pushSlice (sig ++ [Nat.lor 1 nw.fork_id]) ++
        pushSlice (caps.pubKeyBytes k)) := by
    unfold scriptSigSignOne BitcoinForkTransaction.sign_hash_and_pub_key
      BitcoinForkTransaction.fork_id
    simp only [h_u, h_k, h_nw, h_fa, h_sig]
  have hlen : ins.length = t.unspents.length := by
    unfold BitcoinForkTransaction.tx_inputs at h_ins
    exact txInputsAux_length _ _ h_ins
  have hi : i < t.unspents.length := by
    rcases List.get?_eq_some.mp h_u with ⟨hlt, _⟩
    exact hlt
  have hi' : i < (Transaction.mk 1 0 ins outs).input.length := by
    simpa [hlen] using hi
  unfold BitcoinForkTransaction.script_sigs_sign at h_run
  obtain ⟨v, hv, hget⟩ :=
    scriptSigsRange_get caps t ⟨1, 0, ins, outs⟩ keys _ 0 scripts h_run i hi'
  rw [Nat.zero_add] at hv
  rw [hone] at hv
  obtain rfl := Except.ok.inj hv
  exact hget

def outs0 : List TxOut :=
  okOr [] (BitcoinForkTransaction.tx_outs caps0 t_leg (caps0.scriptPubkey ()))

def ins0 : List TxIn := okOr [] (BitcoinForkTransaction.tx_inputs t_leg)

/-- Witness for C3 at the concrete legacy request. -/
theorem c3_legacy_sighash_and_script_witness :
    (okOr [] (BitcoinForkTransaction.script_sigs_sign caps0 t_leg
        ⟨1, 0, ins0, outs0⟩ [()])).get? 0 =
      some (pushSlice ([9, 9] ++ [Nat.lor 1 (Network.mk 0).fork_id]) ++
        pushSlice (caps0.pubKeyBytes ())) :=
  c3_legacy_sighash_and_script caps0 t_leg [()] (caps0.scriptPubkey ())
    outs0 ins0 _ 0 u_ok () ⟨0⟩ () [9, 9]
    rfl rfl rfl rfl rfl rfl rfl rfl rfl

/-! ## Claim C8 -/

lemma txInputsAux_bad (us : List Utxo)
    (h : ∃ u ∈ us, hash256FromHex u.tx_hash = none) :
    txInputsAux us = .error (.panic "unwrap") := by
  induction us with
  | nil => simp at h
  | cons v us ih =>
    unfold txInputsAux
    cases hhex : hash256FromHex v.tx_hash with
    | none => rfl
    | some txid =>
      have hrest : ∃ u ∈ us, hash256FromHex u.tx_hash = none := by
        rcases h with ⟨u, hm, hn⟩
        rcases List.mem_cons.mp hm with rfl | hm
        · exact absurd hn (by simp [hhex])
        · exact ⟨u, hm, hn⟩
      rw [ih hrest]

/-- Claim C8 (counterexample to the claim as stated): the panic branches are
reachable.  At a concrete request whose only Utxo has a non-hex transaction
hash the signing call dies in `tx_inputs` on
`Hash256::from_hex(..).unwrap()`; at a concrete request with an empty Utxo
list it dies in `change_address` on `expect("first_utxo")`; and mnemonic
keystore creation with a derivation path its parser rejects dies on
`DerivationPath::from_str(path).unwrap()`. -/
theorem c8_counterexample :
    (HdKeystore.sign_transaction_traced kc0 caps0 t_badhash (some "pw")).fst =
        .error (.panic "unwrap") ∧
      (HdKeystore.sign_transaction_traced kc0 caps0 t_empty (some "pw")).fst =
        .error (.panic "first_utxo") ∧
      generate_prv_key_from_mnemonic mc0 "inject kidney empty canal"
        "badpath" = .error (.panic "unwrap") := by
  refine ⟨rfl, rfl, rfl⟩

/-- Claim C8 (amended): failures the code checks for are returned as typed
errors (e.g. a Utxo path with the wrong number of components, an invalid
mnemonic), but the unwrap/expect branches cited by the claim are reachable,
not unreachable: any Utxo whose transaction hash fails 64-digit hex parsing
panics in `tx_inputs`; an empty Utxo list panics in `change_address`; and a
derivation path rejected by the path parser panics in mnemonic keystore
creation even though the mnemonic itself was validated. -/
theorem c8_panics_reachable {Addr PrivKey XPrv PathV PrivKeyV : Type}
    (caps : Caps Addr PrivKey) (t : BitcoinForkTransaction) (xpub : String)
    (mc : MnemonicCaps XPrv PathV PrivKeyV) (mnemonic path : String) :
    ((∃ u ∈ t.unspents, hash256FromHex u.tx_hash = none) →
      BitcoinForkTransaction.tx_inputs t = .error (.panic "unwrap")) ∧
    (t.unspents = [] →
      BitcoinForkTransaction.change_address caps t xpub =
        .error (.panic "first_utxo")) ∧
    (mc.mnemonicOk mnemonic = true → mc.parsePath path = none →
      generate_prv_key_from_mnemonic mc mnemonic path =
        .error (.panic "unwrap")) := by
  refine ⟨fun h => txInputsAux_bad _ h, fun h => ?_, fun hok hnone => ?_⟩
  · unfold BitcoinForkTransaction.change_address
    rw [h]
    rfl
  · unfold generate_prv_key_from_mnemonic
    rw [if_pos hok]
    cases hm : mc.newMaster (mc.seedOf mnemonic) with
    | none => rfl
    | some sk => rw [hnone]

/-- Witness for the amended C8 at the three concrete inputs. -/
theorem c8_panics_reachable_witness :
    BitcoinForkTransaction.tx_inputs t_badhash = .error (.panic "unwrap") ∧
      BitcoinForkTransaction.change_address caps0 t_empty "xp" =
        .error (.panic "first_utxo") ∧
      generate_prv_key_from_mnemonic mc0 "words" "m/badpath" =
        .error (.panic "unwrap") :=
  ⟨(c8_panics_reachable caps0 t_badhash "xp" mc0 "words" "m/badpath").1
      (by decide),
   (c8_panics_reachable caps0 t_empty "xp" mc0 "words" "m/badpath").2.1 rfl,
   (c8_panics_reachable caps0 t_empty "xp" mc0 "words" "m/badpath").2.2
      rfl rfl⟩

/-! ## Claim C10: the Utxo locking-script text never influences signing -/

section ScriptIrrelevance

variable {Addr PrivKey : Type}

lemma get?_map_local {A B : Type} (f : A → B) : ∀ (l : List A) (n : Nat),
    (l.map f).get? n = (l.get? n).map f
  | [], _ => rfl
  | _ :: _, 0 => rfl
  | _ :: l, n + 1 => get?_map_local f l n

lemma collectAux_erase (ap : String) (us : List Utxo) :
    collectAux ap (us.map eraseScript) = collectAux ap us := by
  induction us with
  | nil => rfl
  | cons u us ih =>
    unfold collectAux
    simp only [List.map_cons]
    rw [ih]
    rfl

lemma sumAmounts_erase (us : List Utxo) :
    sumAmounts (us.map eraseScript) = sumAmounts us := by
  unfold sumAmounts
  induction us with
  | nil => rfl
  | cons u us ih =>
    simp only [List.map_cons, List.foldl_cons]
    have aux : ∀ (a : Int) (l : List Utxo),
        (l.map eraseScript).foldl (fun a u => a + u.amount) a =
          l.foldl (fun a u => a + u.amount) a := by
      intro a l
      induction l generalizing a with
      | nil => rfl
      | cons v l ihl => simp only [List.map_cons, List.foldl_cons]; exact ihl _
    exact aux _ us

lemma txInputsAux_erase (us : List Utxo) :
    txInputsAux (us.map eraseScript) = txInputsAux us := by
  induction us with
  | nil => rfl
  | cons u us ih =>
    unfold txInputsAux
    simp only [List.map_cons]
    rw [ih]
    rfl

lemma collect_erase (caps : Caps Addr PrivKey) (t : BitcoinForkTransaction)
    (path : String) :
    BitcoinForkTransaction.collect_prv_keys_paths caps (eraseScripts t) path =
      BitcoinForkTransaction.collect_prv_keys_paths caps t path := by
  unfold BitcoinForkTransaction.collect_prv_keys_paths
  cases caps.getAccountPath path with
  | error s => rfl
  | ok ap => exact collectAux_erase ap t.unspents

lemma change_address_erase (caps : Caps Addr PrivKey)
    (t : BitcoinForkTransaction) (xpub : String) :
    BitcoinForkTransaction.change_address caps (eraseScripts t) xpub =
      BitcoinForkTransaction.change_address caps t xpub := by
  unfold BitcoinForkTransaction.change_address eraseScripts
  cases t.unspents with
  | nil => rfl
  | cons u us => rfl

lemma tx_outs_erase (caps : Caps Addr PrivKey) (t : BitcoinForkTransaction)
    (cs : Bytes) :
    BitcoinForkTransaction.tx_outs caps (eraseScripts t) cs =
      BitcoinForkTransaction.tx_outs caps t cs := by
  unfold BitcoinForkTransaction.tx_outs
  simp only [eraseScripts, sumAmounts_erase]
  rfl

lemma tx_inputs_erase (t : BitcoinForkTransaction) :
    BitcoinForkTransaction.tx_inputs (eraseScripts t) =
      BitcoinForkTransaction.tx_inputs t := by
  unfold BitcoinForkTransaction.tx_inputs
  exact txInputsAux_erase t.unspents

lemma scriptSigSignOne_erase (caps : Caps Addr PrivKey)
    (t : BitcoinForkTransaction) (tx : Transaction) (keys : List PrivKey)
    (i : Nat) :
    scriptSigSignOne caps (eraseScripts t) tx keys i =
      scriptSigSignOne caps t tx keys i := by
  unfold scriptSigSignOne
  simp only [eraseScripts, get?_map_local]
  cases t.unspents.get? i <;> rfl

lemma scriptSigsRange_erase (caps : Caps Addr PrivKey)
    (t : BitcoinForkTransaction) (tx : Transaction) (keys : List PrivKey)
    (n : Nat) : ∀ i,
    scriptSigsRange caps (eraseScripts t) tx keys i n =
      scriptSigsRange caps t tx keys i n := by
  induction n with
  | zero => intro i; rfl
  | succ n ih =>
    intro i
    unfold scriptSigsRange
    rw [scriptSigSignOne_erase, ih]

lemma witnessSignOne_erase (caps : Caps Addr PrivKey)
    (t : BitcoinForkTransaction) (tx : Transaction) (keys : List PrivKey)
    (i : Nat) :
    witnessSignOne caps (eraseScripts t) tx keys i =
      witnessSignOne caps t tx keys i := by
  unfold witnessSignOne
  simp only [eraseScripts, get?_map_local]
  cases t.unspents.get? i <;> rfl

lemma witnessRange_erase (caps : Caps Addr PrivKey)
    (t : BitcoinForkTransaction) (tx : Transaction) (keys : List PrivKey)
    (n : Nat) : ∀ i,
    witnessRange caps (eraseScripts t) tx keys i n =
      witnessRange caps t tx keys i n := by
  induction n with
  | zero => intro i; rfl
  | succ n ih =>
    intro i
    unfold witnessRange
    rw [witnessSignOne_erase, ih]

lemma segwitBranch_erase (caps : Caps Addr PrivKey)
    (t : BitcoinForkTransaction) (tx : Transaction) (keys : List PrivKey) :
    segwitBranch caps (eraseScripts t) tx keys =
      segwitBranch caps t tx keys := by
  unfold segwitBranch BitcoinForkTransaction.witness_sign
  rw [witnessRange_erase]

lemma legacyBranch_erase (caps : Caps Addr PrivKey)
    (t : BitcoinForkTransaction) (tx : Transaction) (keys : List PrivKey) :
    legacyBranch caps (eraseScripts t) tx keys =
      legacyBranch caps t tx keys := by
  unfold legacyBranch BitcoinForkTransaction.script_sigs_sign
  rw [scriptSigsRange_erase]

lemma sign_transaction_erase (caps : Caps Addr PrivKey)
    (t : BitcoinForkTransaction) (keys : List PrivKey) (change_addr : Addr) :
    BitcoinForkTransaction.sign_transaction caps (eraseScripts t) keys
        change_addr =
      BitcoinForkTransaction.sign_transaction caps t keys change_addr := by
  unfold BitcoinForkTransaction.sign_transaction
  simp only []
  rw [tx_outs_erase, tx_inputs_erase,
    show (eraseScripts t).is_seg_wit = t.is_seg_wit from rfl]
  cases BitcoinForkTransaction.tx_outs caps t (caps.scriptPubkey change_addr) with
  | error e => rfl
  | ok outs =>
    cases BitcoinForkTransaction.tx_inputs t with
    | error e => rfl
    | ok ins =>
      simp only []
      rw [segwitBranch_erase, legacyBranch_erase]

lemma traced_erase (kc : HdKeystore PrivKey) (caps : Caps Addr PrivKey)
    (t : BitcoinForkTransaction) (password : Option String) :
    HdKeystore.sign_transaction_traced kc caps (eraseScripts t) password =
      HdKeystore.sign_transaction_traced kc caps t password := by
  unfold HdKeystore.sign_transaction_traced
  simp only [show (eraseScripts t).coin = t.coin from rfl, collect_erase,
    change_address_erase, sign_transaction_erase]

lemma eraseScript_congr {u v : Utxo} (h : UtxoEqExceptScript u v) :
    eraseScript u = eraseScript v := by
  cases u; cases v
  obtain ⟨h1, h2, h3, h4, h5, h6⟩ := h
  simp_all [eraseScript]

lemma mapErase_congr {us vs : List Utxo}
    (h : List.Forall₂ UtxoEqExceptScript us vs) :
    us.map eraseScript = vs.map eraseScript := by
  induction h with
  | nil => rfl
  | cons hr _ ih => simp only [List.map_cons, ih, eraseScript_congr hr]

end ScriptIrrelevance

/-- Claim C10 (confirmed): two signing calls that are identical except for
the `scriptPubKey` texts of their Utxos produce identical results — trace
included — for every keystore, capability record and password, in both the
legacy and the witness path: the engine reconstructs each input's locking
script from the derived public key and never reads the Utxo's
`scriptPubKey` field. -/
theorem c10_script_pub_key_never_read {Addr PrivKey : Type}
    (kc : HdKeystore PrivKey) (caps : Caps Addr PrivKey)
    (t u : BitcoinForkTransaction) (password : Option String)
    (hto : t.to = u.to) (ham : t.amount = u.amount) (hmemo : t.memo = u.memo)
    (hfee : t.fee = u.fee) (hidx : t.change_idx = u.change_idx)
    (hcoin : t.coin = u.coin) (hsw : t.is_seg_wit = u.is_seg_wit)
    (hus : List.Forall₂ UtxoEqExceptScript t.unspents u.unspents) :
    HdKeystore.sign_transaction_traced kc caps t password =
      HdKeystore.sign_transaction_traced kc caps u password := by
  have herase : eraseScripts t = eraseScripts u := by
    cases t; cases u
    simp only [eraseScripts] at *
    simp_all
    exact mapErase_congr hus
  calc HdKeystore.sign_transaction_traced kc caps t password
      = HdKeystore.sign_transaction_traced kc caps (eraseScripts t) password :=
        (traced_erase kc caps t password).symm
    _ = HdKeystore.sign_transaction_traced kc caps (eraseScripts u) password :=
        by rw [herase]
    _ = HdKeystore.sign_transaction_traced kc caps u password :=
        traced_erase kc caps u password

/-- Witness for C10: the concrete legacy request signed with its
locking-script text replaced gives the same result. -/
theorem c10_script_pub_key_never_read_witness :
    HdKeystore.sign_transaction_traced kc0 caps0 t_leg (some "pw") =
      HdKeystore.sign_transaction_traced kc0 caps0 t_leg_scripts (some "pw") :=
  c10_script_pub_key_never_read kc0 caps0 t_leg t_leg_scripts (some "pw")
    rfl rfl rfl rfl rfl rfl rfl
    (List.Forall₂.cons ⟨rfl, rfl, rfl, rfl, rfl, rfl⟩ List.Forall₂.nil)

/-- Witness for C7 at a concrete password and secret. -/
theorem v3keystore_roundtrip_witness :
    V3Keystore.decrypt_cipher_text
        (okOr ⟨"", 0, "", Crypto.new "" [], .wif⟩
          (V3Keystore.new wif0 "pw-one" "L1secretKey")) "pw-one" =
      .ok (strBytes "L1secretKey") ∧
      ∀ other : String, other ≠ "pw-one" →
        V3Keystore.decrypt_cipher_text
            (okOr ⟨"", 0, "", Crypto.new "" [], .wif⟩
              (V3Keystore.new wif0 "pw-one" "L1secretKey")) other =
          .error .invalidPassword :=
  v3keystore_roundtrip wif0 "pw-one" "L1secretKey" _ rfl

end TokenCore
